import Mathlib

/-!
# Verification of the reedline completion menu (`src/menu/completion_menu.rs`)

Shallow embedding conventions:

* Rust `u16` / `usize` values are modelled as `Nat`.  All the arithmetic the
  menu performs on in-range values is then exact; `checked_sub` becomes a
  guarded `Nat` subtraction, `saturating_sub` is `Nat` subtraction (which is
  already saturating).  The places where the Rust code can actually fail —
  the unchecked `values.len() - 1` subtractions in `move_left`/`move_right`
  and the two divisions of `update_working_details` (division by zero panics
  in Rust) — are additionally modelled by `Option`-returning variants
  (`move_leftC`, `move_rightC`, `update_working_detailsC`) that return `none`
  exactly when the Rust expression would underflow or divide by zero.  The
  total variants stand in `Nat` semantics (`x - y = 0` on underflow,
  `x / 0 = 0`) at those points.
* Rust strings are byte sequences; they are modelled as `List Char`, one
  `Char` per byte, so Rust `len()` is `List.length` and `Span`s index the
  list.  All the concrete strings appearing below are ASCII, for which this
  is exact.
* `LineBuffer`, the completer, the painter and the text styles are external
  collaborators (not part of this source file); they are modelled from the
  spec at their interface boundary, see the `Modelled from the spec:` doc
  comments.  `update_values` only reads the buffer (`get_buffer`/`offset`),
  so it is embedded as a pure function on the menu state.
-/

/-- Byte span into the line buffer: Rust `Span { start, end }`.  `end` is a
Lean keyword, so the field is called `stop`. -/
structure Span where
  start : Nat
  stop : Nat
deriving DecidableEq

/-- The menu event type dispatched to the completion menu. -/
inductive MenuEvent where
  | Activate (updated : Bool)
  | Deactivate
  | Edit (updated : Bool)
  | NextElement
  | PreviousElement
  | MoveUp
  | MoveDown
  | MoveLeft
  | MoveRight
  | NextPage
  | PreviousPage
deriving DecidableEq

/-- Modelled from the spec: an ANSI style is only ever consumed through the
string its `prefix()` call produces, so a style is modelled as that string
(a byte sequence). -/
abbrev AnsiStyle := List Char

/-- Modelled from the spec: the ANSI reset sequence appended after each
styled cell. -/
def RESET : List Char := ['\x1b', '[', '0', 'm']

/-- Modelled from the spec: menu coloring, a normal and a selected text
style. -/
structure MenuTextStyle where
  text_style : AnsiStyle
  selected_text_style : AnsiStyle
deriving DecidableEq

/-- Default values used as reference for the menu (Rust
`DefaultColumnDetails`). -/
structure DefaultColumnDetails where
  columns : Nat
  col_width : Option Nat
  col_padding : Nat
deriving DecidableEq

/-- `impl Default for DefaultColumnDetails`. -/
def DefaultColumnDetails.default : DefaultColumnDetails :=
  { columns := 4, col_width := none, col_padding := 2 }

/-- The actual (working) column conditions of the menu (Rust
`ColumnDetails`). -/
structure ColumnDetails where
  columns : Nat
  col_width : Nat
  col_padding : Nat
deriving DecidableEq

/-- `#[derive(Default)]` on `ColumnDetails`: every numeric field is 0. -/
def ColumnDetails.default : ColumnDetails :=
  { columns := 0, col_width := 0, col_padding := 0 }

/-- Modelled from the spec: the external text buffer, a byte sequence plus
an insertion point (`current_text()` / `cursor_offset()`). -/
structure LineBuffer where
  buffer : List Char
  insertion_point : Nat
deriving DecidableEq

/-- `LineBuffer::get_buffer`. -/
def LineBuffer.get_buffer (b : LineBuffer) : List Char := b.buffer

/-- `LineBuffer::offset`. -/
def LineBuffer.offset (b : LineBuffer) : Nat := b.insertion_point

/-- Modelled from the spec: `replace(range, text)` replaces the buffer's
`[start, stop)` region with the replacement text. -/
def LineBuffer.replace (b : LineBuffer) (start stop : Nat) (text : List Char) :
    LineBuffer :=
  { b with buffer := b.buffer.take start ++ text ++ b.buffer.drop stop }

/-- Modelled from the spec: `set_cursor_offset` / `set_insertion_point`. -/
def LineBuffer.set_insertion_point (b : LineBuffer) (offset : Nat) : LineBuffer :=
  { b with insertion_point := offset }

/-- Modelled from the spec: the completion engine,
`complete(text, cursor_offset) -> ordered sequence of (Span, text)`. -/
def Completer := List Char → Nat → List (Span × List Char)

/-- Completion menu state (Rust `CompletionMenu`). -/
structure CompletionMenu where
  active : Bool
  color : MenuTextStyle
  default_details : DefaultColumnDetails
  min_rows : Nat
  working_details : ColumnDetails
  values : List (Span × List Char)
  col_pos : Nat
  row_pos : Nat
  marker : List Char
  event : Option MenuEvent
deriving DecidableEq

/-- `impl Default for CompletionMenu`. -/
def CompletionMenu.default : CompletionMenu :=
  { active := false
    color := { text_style := [], selected_text_style := [] }
    default_details := DefaultColumnDetails.default
    min_rows := 3
    working_details := ColumnDetails.default
    values := []
    col_pos := 0
    row_pos := 0
    marker := ['|', ' ']
    event := none }

namespace CompletionMenu

/-- Builder `with_columns`. -/
def with_columns (m : CompletionMenu) (columns : Nat) : CompletionMenu :=
  { m with default_details := { m.default_details with columns := columns } }

/-- Builder `with_column_width`. -/
def with_column_width (m : CompletionMenu) (col_width : Option Nat) :
    CompletionMenu :=
  { m with default_details := { m.default_details with col_width := col_width } }

/-- Builder `with_column_padding`. -/
def with_column_padding (m : CompletionMenu) (col_padding : Nat) :
    CompletionMenu :=
  { m with default_details := { m.default_details with col_padding := col_padding } }

/-- `get_values`: the cached candidate list. -/
def get_values (m : CompletionMenu) : List (Span × List Char) := m.values

/-- `get_cols`: `self.working_details.columns.max(1)`. -/
def get_cols (m : CompletionMenu) : Nat := max m.working_details.columns 1

/-- `get_rows`: `len / cols`, plus one when `len % cols != 0`. -/
def get_rows (m : CompletionMenu) : Nat :=
  let rows := m.get_values.length / m.get_cols
  if m.get_values.length % m.get_cols ≠ 0 then rows + 1 else rows

/-- `get_width`: the working column width. -/
def get_width (m : CompletionMenu) : Nat := m.working_details.col_width

/-- `index`: `row_pos * cols + col_pos`. -/
def index (m : CompletionMenu) : Nat := m.row_pos * m.get_cols + m.col_pos

/-- `reset_position`. -/
def reset_position (m : CompletionMenu) : CompletionMenu :=
  { m with col_pos := 0, row_pos := 0 }

/-- `get_value`: the candidate under the cursor, if any. -/
def get_value (m : CompletionMenu) : Option (Span × List Char) :=
  m.get_values.get? m.index

/-- `move_next`. -/
def move_next (m : CompletionMenu) : CompletionMenu :=
  let p1 := if m.col_pos + 1 ≥ m.get_cols then (m.row_pos + 1, 0)
            else (m.row_pos, m.col_pos + 1)
  let p2 := if p1.1 ≥ m.get_rows then ((0 : Nat), (0 : Nat)) else p1
  let position := p2.1 * m.get_cols + p2.2
  if position ≥ m.get_values.length then m.reset_position
  else { m with col_pos := p2.2, row_pos := p2.1 }

/-- `move_previous` (`checked_sub` modelled by a positivity guard,
`saturating_sub` is `Nat` subtraction). -/
def move_previous (m : CompletionMenu) : CompletionMenu :=
  let p :=
    if 0 < m.col_pos then (m.col_pos - 1, m.row_pos)
    else if 0 < m.row_pos then (m.get_cols - 1, m.row_pos - 1)
    else (m.get_cols - 1, m.get_rows - 1)
  let position := p.2 * m.get_cols + p.1
  if position ≥ m.get_values.length then
    { m with col_pos := m.get_values.length % m.get_cols - 1,
             row_pos := m.get_rows - 1 }
  else { m with col_pos := p.1, row_pos := p.2 }

/-- `move_up`. -/
def move_up (m : CompletionMenu) : CompletionMenu :=
  { m with row_pos :=
      if 0 < m.row_pos then m.row_pos - 1
      else
        let new_row := m.get_rows - 1
        if new_row * m.get_cols + m.col_pos ≥ m.values.length then new_row - 1
        else new_row }

/-- `move_down`. -/
def move_down (m : CompletionMenu) : CompletionMenu :=
  { m with row_pos :=
      let new_row := m.row_pos + 1
      if new_row ≥ m.get_rows then 0
      else if new_row * m.get_cols + m.col_pos ≥ m.values.length then 0
      else new_row }

/-- `move_left`.  The else-branches evaluate `self.values.len() - 1`; as a
total function that subtraction is `Nat` (truncated) subtraction, and
`move_leftC` tracks the underflow. -/
def move_left (m : CompletionMenu) : CompletionMenu :=
  { m with col_pos :=
      if 0 < m.col_pos then m.col_pos - 1
      else if m.index = m.values.length - 1 then 0
      else m.get_cols - 1 }

/-- `move_right`.  The disjunction mirrors the short-circuiting `||` of the
source; `move_rightC` tracks the `values.len() - 1` underflow. -/
def move_right (m : CompletionMenu) : CompletionMenu :=
  { m with col_pos :=
      let new_col := m.col_pos + 1
      if new_col ≥ m.get_cols ∨ m.index + 1 > m.values.length - 1 then 0
      else new_col }

/-- `move_left` with the unchecked `self.values.len() - 1` subtraction made
explicit: `none` exactly when the Rust expression underflows (empty
candidate list reached with `col_pos = 0`). -/
def move_leftC (m : CompletionMenu) : Option CompletionMenu :=
  if 0 < m.col_pos then some { m with col_pos := m.col_pos - 1 }
  else if m.values.length = 0 then none
  else if m.index = m.values.length - 1 then some { m with col_pos := 0 }
  else some { m with col_pos := m.get_cols - 1 }

/-- `move_right` with the unchecked `self.values.len() - 1` subtraction made
explicit; the `new_col >= cols` disjunct short-circuits in the source, so
the subtraction is only reached when it is false. -/
def move_rightC (m : CompletionMenu) : Option CompletionMenu :=
  if m.col_pos + 1 ≥ m.get_cols then some { m with col_pos := 0 }
  else if m.values.length = 0 then none
  else if m.index + 1 > m.values.length - 1 then some { m with col_pos := 0 }
  else some { m with col_pos := m.col_pos + 1 }

/-- `is_active`. -/
def is_active (m : CompletionMenu) : Bool := m.active

/-- `menu_event`: mark active on `Activate`, then store the event
(last-write-wins, depth-1 slot). -/
def menu_event (m : CompletionMenu) (event : MenuEvent) : CompletionMenu :=
  let m := match event with
    | .Activate _ => { m with active := true }
    | _ => m
  { m with event := some event }

/-- Rust `str::replace("\n", " ")` on a byte string: the pattern is a single
byte, so it is a byte-wise map. -/
def replace_newline (l : List Char) : List Char :=
  l.map fun ch => if ch = '\n' then ' ' else ch

/-- `update_values`: re-query the completer on the newline-adjusted buffer
text and the unmodified offset, then reset the cursor. -/
def update_values (m : CompletionMenu) (line_buffer : LineBuffer)
    (completer : Completer) : CompletionMenu :=
  reset_position
    { m with values := completer (replace_newline line_buffer.get_buffer)
                          line_buffer.offset }

/-- The `fold` of `update_working_details` computing `max_width`: maximum
over candidates of `string.len() + working_details.col_padding`. -/
def sizingMaxWidth (m : CompletionMenu) : Nat :=
  m.get_values.foldl
    (fun acc sv =>
      let str_len := sv.2.length + m.working_details.col_padding
      if str_len > acc then str_len else acc) 0

/-- The `default_width` of the sizing step: the configured fixed width, or
`screen_width / default_columns` when no fixed width is configured.  The
division is by `default_details.columns` with no zero guard; as a total
function `x / 0 = 0` stands in, and `applySizingC` tracks the panic. -/
def defaultWidth (screen_width : Nat) (m : CompletionMenu) : Nat :=
  match m.default_details.col_width with
  | some col_width => col_width
  | none => screen_width / m.default_details.columns

/-- The working column width the sizing step assigns:
`max(max_width, default_width)` written as the source's comparison. -/
def sizedWidth (screen_width : Nat) (m : CompletionMenu) : Nat :=
  if m.sizingMaxWidth > defaultWidth screen_width m then m.sizingMaxWidth
  else defaultWidth screen_width m

/-- The sizing tail of `update_working_details`: assign the working column
width, then the working column count from the columns that fit on screen
(`possible_cols = screen_width / col_width`, again with no zero guard). -/
def applySizing (screen_width : Nat) (m : CompletionMenu) : CompletionMenu :=
  let m := { m with working_details :=
      { m.working_details with col_width := sizedWidth screen_width m } }
  let possible_cols := screen_width / m.working_details.col_width
  if possible_cols > m.default_details.columns then
    { m with working_details :=
        { m.working_details with columns := max m.default_details.columns 1 } }
  else
    { m with working_details := { m.working_details with columns := possible_cols } }

/-- The event dispatch of `update_working_details` (the `match` on the taken
event). -/
def dispatchEvent (m : CompletionMenu) (line_buffer : LineBuffer)
    (completer : Completer) (event : MenuEvent) : CompletionMenu :=
  match event with
  | .Activate updated =>
      let m := reset_position { m with active := true }
      if updated then m else m.update_values line_buffer completer
  | .Deactivate => { m with active := false }
  | .Edit updated =>
      let m := reset_position m
      if updated then m else m.update_values line_buffer completer
  | .NextElement => m.move_next
  | .PreviousElement => m.move_previous
  | .MoveUp => m.move_up
  | .MoveDown => m.move_down
  | .MoveLeft => m.move_left
  | .MoveRight => m.move_right
  | .NextPage => m
  | .PreviousPage => m

/-- `update_working_details`: take the pending event (clearing the slot), run
the event dispatch, then the sizing step.  With no pending event nothing
happens. -/
def update_working_details (m : CompletionMenu) (line_buffer : LineBuffer)
    (completer : Completer) (screen_width : Nat) : CompletionMenu :=
  match m.event with
  | none => m
  | some event =>
      applySizing screen_width
        (dispatchEvent { m with event := none } line_buffer completer event)

/-- The event dispatch with the `move_left`/`move_right` underflows made
explicit; every other arm cannot fail. -/
def dispatchEventC (m : CompletionMenu) (line_buffer : LineBuffer)
    (completer : Completer) (event : MenuEvent) : Option CompletionMenu :=
  match event with
  | .MoveLeft => m.move_leftC
  | .MoveRight => m.move_rightC
  | e => some (dispatchEvent m line_buffer completer e)

/-- The sizing step with its two division-by-zero panics made explicit:
`none` when no fixed width is configured and the default column count is 0
(the `screen_width / default_columns` division), and when the computed
working column width is 0 (the `screen_width / col_width` division);
otherwise it agrees with `applySizing`. -/
def applySizingC (screen_width : Nat) (m : CompletionMenu) :
    Option CompletionMenu :=
  match m.default_details.col_width with
  | some _ =>
      if sizedWidth screen_width m = 0 then none
      else some (applySizing screen_width m)
  | none =>
      if m.default_details.columns = 0 then none
      else if sizedWidth screen_width m = 0 then none
      else some (applySizing screen_width m)

/-- `update_working_details` with the underflows of the dispatched moves and
the divisions of the sizing step made explicit. -/
def update_working_detailsC (m : CompletionMenu) (line_buffer : LineBuffer)
    (completer : Completer) (screen_width : Nat) : Option CompletionMenu :=
  match m.event with
  | none => some m
  | some event =>
      match dispatchEventC { m with event := none } line_buffer completer event with
      | none => none
      | some m => applySizingC screen_width m

/-- `replace_in_buffer`: splice the selected candidate over its span and move
the insertion point by the length difference. -/
def replace_in_buffer (m : CompletionMenu) (line_buffer : LineBuffer) :
    LineBuffer :=
  match m.get_value with
  | none => line_buffer
  | some (span, value) =>
      let offset := line_buffer.offset + (value.length - (span.stop - span.start))
      (line_buffer.replace span.start span.stop value).set_insertion_point offset

/-- `no_records_msg`. -/
def no_records_msg (m : CompletionMenu) (use_ansi_coloring : Bool) : List Char :=
  let msg := "NO RECORDS FOUND".toList
  if use_ansi_coloring then m.color.selected_text_style ++ msg ++ RESET
  else msg

/-- `end_of_line`: the row terminator, `"\r\n"` on the last column of a row. -/
def end_of_line (m : CompletionMenu) (column : Nat) : List Char :=
  if column = m.get_cols - 1 then ['\r', '\n'] else []

/-- `text_style`: selected style on the cursor cell, normal style elsewhere. -/
def text_style (m : CompletionMenu) (i : Nat) : List Char :=
  if i = m.index then m.color.selected_text_style else m.color.text_style

/-- `create_string`: one rendered cell. -/
def create_string (m : CompletionMenu) (line : List Char) (i : Nat)
    (column : Nat) (empty_space : Nat) (use_ansi_coloring : Bool) : List Char :=
  if use_ansi_coloring then
    m.text_style i ++ line ++ RESET ++ List.replicate empty_space ' '
      ++ m.end_of_line column
  else
    let line_str := if i = m.index then '>' :: line.map Char.toUpper else line
    let padded := line_str ++ List.replicate (m.get_width - line_str.length) ' '
    padded ++ m.end_of_line column

/-- `menu_string`: pagination plus per-cell rendering. -/
def menu_string (m : CompletionMenu) (available_lines : Nat)
    (use_ansi_coloring : Bool) : List Char :=
  if m.get_values = [] then m.no_records_msg use_ansi_coloring
  else
    let skip_values :=
      if m.row_pos ≥ available_lines then
        (m.row_pos - available_lines + 1) * m.get_cols
      else 0
    let available_values := available_lines * m.get_cols
    (((m.get_values.drop skip_values).take available_values).enum.map
      (fun p =>
        let i := p.1 + skip_values
        let column := i % m.get_cols
        let empty_space := m.get_width - p.2.2.length
        m.create_string p.2.2 i column empty_space use_ansi_coloring)).flatten

end CompletionMenu

/-- One navigation operation, as enumerated by the cursor-invariant claim. -/
inductive NavOp where
  | next
  | previous
  | up
  | down
  | left
  | right
deriving DecidableEq

/-- Apply one navigation operation to the menu. -/
def applyNav (m : CompletionMenu) (op : NavOp) : CompletionMenu :=
  match op with
  | .next => m.move_next
  | .previous => m.move_previous
  | .up => m.move_up
  | .down => m.move_down
  | .left => m.move_left
  | .right => m.move_right

/-- Run a sequence of navigation operations. -/
def runNav (m : CompletionMenu) (ops : List NavOp) : CompletionMenu :=
  ops.foldl applyNav m

/-! ## Basic lemmas about the embedding -/

namespace CompletionMenu

lemma get_values_eq (m : CompletionMenu) : m.get_values = m.values := rfl

lemma get_cols_pos (m : CompletionMenu) : 0 < m.get_cols := by
  have := Nat.le_max_right m.working_details.columns 1
  simp only [get_cols]
  omega

/-- The sizing step only rewrites the working details: it assigns the
computed column width and then the working column count. -/
lemma applySizing_shape (w : Nat) (m : CompletionMenu) :
    applySizing w m
      = { m with working_details :=
            { m.working_details with
                col_width := sizedWidth w m,
                columns :=
                  if w / sizedWidth w m > m.default_details.columns
                  then max m.default_details.columns 1
                  else w / sizedWidth w m } } := by
  unfold applySizing
  by_cases h : w / sizedWidth w m > m.default_details.columns <;> simp [h]

lemma applySizing_event (w : Nat) (m : CompletionMenu) :
    (applySizing w m).event = m.event := by rw [applySizing_shape]

lemma applySizing_active (w : Nat) (m : CompletionMenu) :
    (applySizing w m).active = m.active := by rw [applySizing_shape]

lemma applySizing_default_details (w : Nat) (m : CompletionMenu) :
    (applySizing w m).default_details = m.default_details := by
  rw [applySizing_shape]

lemma applySizing_col_width (w : Nat) (m : CompletionMenu) :
    (applySizing w m).working_details.col_width = sizedWidth w m := by
  rw [applySizing_shape]

lemma applySizing_columns (w : Nat) (m : CompletionMenu) :
    (applySizing w m).working_details.columns
      = (if w / sizedWidth w m > m.default_details.columns
         then max m.default_details.columns 1
         else w / sizedWidth w m) := by
  rw [applySizing_shape]

lemma dispatchEvent_event (m : CompletionMenu) (buf : LineBuffer)
    (completer : Completer) (e : MenuEvent) :
    (dispatchEvent m buf completer e).event = m.event := by
  cases e <;>
    simp only [dispatchEvent, update_values, reset_position, move_next,
      move_previous, move_up, move_down, move_left, move_right] <;>
    (try split_ifs) <;> rfl

lemma dispatchEvent_default_details (m : CompletionMenu) (buf : LineBuffer)
    (completer : Completer) (e : MenuEvent) :
    (dispatchEvent m buf completer e).default_details = m.default_details := by
  cases e <;>
    simp only [dispatchEvent, update_values, reset_position, move_next,
      move_previous, move_up, move_down, move_left, move_right] <;>
    (try split_ifs) <;> rfl

lemma update_working_details_none (m : CompletionMenu) (buf : LineBuffer)
    (completer : Completer) (w : Nat) (h : m.event = none) :
    m.update_working_details buf completer w = m := by
  simp [update_working_details, h]

lemma update_working_details_some (m : CompletionMenu) (buf : LineBuffer)
    (completer : Completer) (w : Nat) (e : MenuEvent) (h : m.event = some e) :
    m.update_working_details buf completer w
      = applySizing w (dispatchEvent { m with event := none } buf completer e) := by
  simp [update_working_details, h]

end CompletionMenu

/-! ## Shared concrete collaborators for witnesses and counterexamples -/

/-- An empty line buffer. -/
def bufEmpty : LineBuffer := { buffer := [], insertion_point := 0 }

/-- A completer returning no candidates. -/
def compNone : Completer := fun _ _ => []

/-! ## C8: take semantics of `update_working_details` -/

/-- C8: each call to `update_working_details` consumes at most one pending
event and clears the slot (the resulting event slot is always empty), and a
call made with no pending event returns the state unchanged — for every
buffer, completer and screen width, so no collaborator can influence the
result of such a call. -/
theorem c8_update_working_details_take_semantics (m : CompletionMenu)
    (buf : LineBuffer) (completer : Completer) (screen_width : Nat) :
    (m.update_working_details buf completer screen_width).event = none
    ∧ (m.event = none → m.update_working_details buf completer screen_width = m) := by
  constructor
  · cases h : m.event with
    | none => rw [CompletionMenu.update_working_details_none m buf completer screen_width h]; exact h
    | some e =>
        rw [CompletionMenu.update_working_details_some m buf completer screen_width e h,
          CompletionMenu.applySizing_event, CompletionMenu.dispatchEvent_event]
  · intro h; exact CompletionMenu.update_working_details_none m buf completer screen_width h

/-- Witness for C8 at a concrete no-pending-event state. -/
theorem c8_update_working_details_take_semantics_witness :
    CompletionMenu.default.event = none
    ∧ (CompletionMenu.default.update_working_details bufEmpty compNone 10).event = none
    ∧ CompletionMenu.default.update_working_details bufEmpty compNone 10
        = CompletionMenu.default :=
  ⟨rfl,
   (c8_update_working_details_take_semantics CompletionMenu.default bufEmpty compNone 10).1,
   (c8_update_working_details_take_semantics CompletionMenu.default bufEmpty compNone 10).2 rfl⟩

/-! ## C9: `update_values` -/

/-- C9: `update_values` reads the buffer's text, maps every newline byte to a
single space (a length-preserving adjustment, so byte offsets are kept),
invokes the completer with the adjusted text and the unmodified insertion
point, stores the returned candidate list verbatim, and resets the cursor to
`(0,0)`; no other menu field changes. -/
theorem c9_update_values_requery (m : CompletionMenu) (buf : LineBuffer)
    (completer : Completer) :
    m.update_values buf completer
      = { m with
            values := completer (buf.buffer.map fun ch => if ch = '\n' then ' ' else ch)
                        buf.insertion_point,
            col_pos := 0,
            row_pos := 0 }
    ∧ (buf.buffer.map fun ch => if ch = '\n' then ' ' else ch).length
        = buf.buffer.length := by
  constructor
  · rfl
  · exact List.length_map _ _

/-! ## C10: `menu_event` frame effect -/

/-- C10: delivering an event stores it in the pending slot and changes
nothing else except that an `Activate` event sets the active flag; in
particular `Deactivate` leaves `is_active` at its prior value, and the menu
only becomes inactive when `update_working_details` later consumes the
pending `Deactivate`. -/
theorem c10_menu_event_frame (m : CompletionMenu) (e : MenuEvent)
    (buf : LineBuffer) (completer : Completer) (screen_width : Nat) :
    m.menu_event e
      = { m with event := some e,
                 active := match e with
                           | .Activate _ => true
                           | _ => m.active }
    ∧ (m.menu_event .Deactivate).is_active = m.is_active
    ∧ ((m.menu_event .Deactivate).update_working_details buf completer
         screen_width).active = false := by
  refine ⟨?_, rfl, ?_⟩
  · cases e <;> rfl
  · rw [CompletionMenu.update_working_details_some _ buf completer screen_width
      MenuEvent.Deactivate rfl, CompletionMenu.applySizing_active]
    rfl

/-! ## C5: `replace_in_buffer` -/

/-- C5: when a candidate `(span, value)` is selected, `replace_in_buffer`
splices `value` over the byte region `[span.start, span.stop)` of the buffer
and sets the insertion point to
`old_offset + (value.len() - (span.stop - span.start))` (stated for
non-shrinking replacements, where the `usize` subtraction cannot
underflow); with an empty candidate list the buffer is returned entirely
unchanged. -/
theorem c5_replace_in_buffer_spec (m : CompletionMenu) (buf : LineBuffer) :
    (∀ span value, m.get_value = some (span, value) →
        span.stop - span.start ≤ value.length →
        m.replace_in_buffer buf
          = { buffer := buf.buffer.take span.start ++ value ++ buf.buffer.drop span.stop,
              insertion_point :=
                buf.insertion_point + (value.length - (span.stop - span.start)) })
    ∧ (m.values = [] → m.replace_in_buffer buf = buf) := by
  constructor
  · intro span value h _
    simp [CompletionMenu.replace_in_buffer, h, LineBuffer.replace,
      LineBuffer.set_insertion_point, LineBuffer.offset]
  · intro h
    simp [CompletionMenu.replace_in_buffer, CompletionMenu.get_value,
      CompletionMenu.get_values, h]

/-- Concrete menu for the C5 witness: one candidate with span `[3,7)` and
replacement `"list"` (the spec's own acceptance example). -/
def menuC5 : CompletionMenu :=
  { CompletionMenu.default with values := [(⟨3, 7⟩, "list".toList)] }

/-- Concrete buffer for the C5 witness: text `"abcdefghij"`, offset 7. -/
def bufC5 : LineBuffer := { buffer := "abcdefghij".toList, insertion_point := 7 }

/-- Witness for C5: accepting span `[3,7)` with replacement `"list"` at
offset 7 yields offset `7 + (4 - 4) = 7` and buffer `"abclisthij"`. -/
theorem c5_replace_in_buffer_spec_witness :
    menuC5.get_value = some (⟨3, 7⟩, "list".toList)
    ∧ (7 : Nat) - 3 ≤ "list".toList.length
    ∧ menuC5.replace_in_buffer bufC5
        = { buffer := bufC5.buffer.take 3 ++ "list".toList ++ bufC5.buffer.drop 7,
            insertion_point := bufC5.insertion_point + ("list".toList.length - (7 - 3)) } :=
  ⟨by decide, by decide,
   (c5_replace_in_buffer_spec menuC5 bufC5).1 ⟨3, 7⟩ "list".toList (by decide) (by decide)⟩

/-! ## C3: the `max_width` computation of the sizing step -/

/-- The spec's sizing example: candidates `["alpha","b","gamma"]`, default
padding 2 (set explicitly through the builder), default columns 4, no fixed
width, with a pending (already-updated) edit event. -/
def menuC3 : CompletionMenu :=
  { CompletionMenu.default.with_column_padding 2 with
      values := [(⟨0, 0⟩, "alpha".toList), (⟨0, 0⟩, "b".toList),
                 (⟨0, 0⟩, "gamma".toList)],
      event := some (MenuEvent.Edit true) }

/-- Counterexample for C3: the fold adds `working_details.col_padding`,
which `#[derive(Default)]` initialises to 0 and which is never copied from
the defaults, so on the claim's own example `max_width` is `5`, not `7`. -/
theorem c3_counterexample :
    menuC3.default_details.col_padding = 2
    ∧ menuC3.working_details.col_padding = 0
    ∧ menuC3.sizingMaxWidth = 5
    ∧ menuC3.sizingMaxWidth ≠ 7 := by decide

/-- C3 (amended): `max_width` is the maximum over candidates of byte length
plus the *working* column padding (initialised to 0, never copied from the
defaults — changing the configured default padding does not affect it); on
the example the per-candidate widths are `5,1,5`, `max_width = 5`, and the
final working width is still `7` (the default width `30 / 4`) with
`working_columns = 4`. -/
theorem c3_amended :
    menuC3.sizingMaxWidth = 5
    ∧ (menuC3.update_working_details bufEmpty compNone 30).working_details.col_width = 7
    ∧ (menuC3.update_working_details bufEmpty compNone 30).working_details.columns = 4
    ∧ ∀ p : Nat, (menuC3.with_column_padding p).sizingMaxWidth = 5 :=
  ⟨by decide, by decide, by decide, fun _ => rfl⟩

/-! ## C4: the working column count of the sizing step -/

/-- A menu configured with `with_columns(0)` and a fixed column width of 3,
one candidate, and a pending navigation event. -/
def menuC4 : CompletionMenu :=
  { (CompletionMenu.default.with_columns 0).with_column_width (some 3) with
      values := [(⟨0, 0⟩, "ab".toList)],
      event := some MenuEvent.NextElement }

/-- Counterexample for C4: with a default column count of 0 (and
`possible_cols = 30 / 3 = 10 > 0`) the sizing step sets
`working_columns = default_columns.max(1) = 1`, not
`min(possible_cols, default_columns) = 0`; in particular
`working_columns <= default_columns` fails. -/
theorem c4_counterexample :
    menuC4.default_details.columns = 0
    ∧ (menuC4.update_working_details bufEmpty compNone 30).working_details.columns = 1
    ∧ min (30 / (menuC4.update_working_details bufEmpty compNone 30).working_details.col_width)
        menuC4.default_details.columns = 0
    ∧ ¬((menuC4.update_working_details bufEmpty compNone 30).working_details.columns
          ≤ menuC4.default_details.columns) := by decide

/-- C4 (amended): after every processed event the sizing step sets
`working_columns = min(possible_cols, default_columns)` and in particular
`working_columns <= default_columns` — but only when `default_columns >= 1`;
when `default_columns = 0` the overshoot branch applies `.max(1)` and the
result is `min(possible_cols, 1)` instead.  The sizing step itself leaves
`working_columns = 0` whenever `possible_cols = 0`. -/
theorem c4_amended (m : CompletionMenu) (buf : LineBuffer)
    (completer : Completer) (w : Nat) (e : MenuEvent) (h : m.event = some e) :
    (0 < m.default_details.columns →
        (m.update_working_details buf completer w).working_details.columns
          = min (w / (m.update_working_details buf completer w).working_details.col_width)
              m.default_details.columns
        ∧ (m.update_working_details buf completer w).working_details.columns
            ≤ m.default_details.columns)
    ∧ (m.default_details.columns = 0 →
        (m.update_working_details buf completer w).working_details.columns
          = min (w / (m.update_working_details buf completer w).working_details.col_width) 1)
    ∧ (w / (m.update_working_details buf completer w).working_details.col_width = 0 →
        (m.update_working_details buf completer w).working_details.columns = 0) := by
  rw [CompletionMenu.update_working_details_some m buf completer w e h]
  rw [CompletionMenu.applySizing_columns, CompletionMenu.applySizing_col_width]
  have hdd : (CompletionMenu.dispatchEvent { m with event := none } buf completer e).default_details
      = m.default_details :=
    CompletionMenu.dispatchEvent_default_details { m with event := none } buf completer e
  rw [hdd]
  by_cases hc :
      w / CompletionMenu.sizedWidth w
          (CompletionMenu.dispatchEvent { m with event := none } buf completer e)
        > m.default_details.columns <;>
    simp only [hc, if_true, if_false] <;> omega

/-- A menu with one candidate and a pending `MoveDown`, default layout
(default columns 4), for the C4 witness. -/
def menuC4W : CompletionMenu :=
  { CompletionMenu.default with
      values := [(⟨0, 0⟩, "ab".toList)],
      event := some MenuEvent.MoveDown }

/-- Witness for C4 (amended) at a concrete state with a pending event. -/
theorem c4_amended_witness :
    menuC4W.event = some MenuEvent.MoveDown
    ∧ ((0 < menuC4W.default_details.columns →
          (menuC4W.update_working_details bufEmpty compNone 30).working_details.columns
            = min (30 / (menuC4W.update_working_details bufEmpty compNone 30).working_details.col_width)
                menuC4W.default_details.columns
          ∧ (menuC4W.update_working_details bufEmpty compNone 30).working_details.columns
              ≤ menuC4W.default_details.columns)
       ∧ (menuC4W.default_details.columns = 0 →
           (menuC4W.update_working_details bufEmpty compNone 30).working_details.columns
             = min (30 / (menuC4W.update_working_details bufEmpty compNone 30).working_details.col_width) 1)
       ∧ (30 / (menuC4W.update_working_details bufEmpty compNone 30).working_details.col_width = 0 →
           (menuC4W.update_working_details bufEmpty compNone 30).working_details.columns = 0)) :=
  ⟨rfl, c4_amended menuC4W bufEmpty compNone 30 MenuEvent.MoveDown rfl⟩

/-! ## C2: absence (and presence) of failing arithmetic -/

namespace CompletionMenu

/-- With a non-empty candidate list the `values.len() - 1` subtraction of
`move_left` cannot underflow, and the checked and total versions agree. -/
lemma move_leftC_eq (m : CompletionMenu) (h : m.values ≠ []) :
    m.move_leftC = some m.move_left := by
  have hl : ¬m.values.length = 0 := by
    simpa using h
  by_cases h1 : 0 < m.col_pos
  · simp [move_leftC, move_left, h1]
  · by_cases h2 : m.index = m.values.length - 1
    · simp [move_leftC, move_left, h1, h2, hl]
    · simp [move_leftC, move_left, h1, h2, hl]

/-- With a non-empty candidate list the `values.len() - 1` subtraction of
`move_right` cannot underflow, and the checked and total versions agree. -/
lemma move_rightC_eq (m : CompletionMenu) (h : m.values ≠ []) :
    m.move_rightC = some m.move_right := by
  have hl : ¬m.values.length = 0 := by
    simpa using h
  by_cases h1 : m.col_pos + 1 ≥ m.get_cols
  · simp [move_rightC, move_right, h1]
  · by_cases h2 : m.index + 1 > m.values.length - 1
    · simp [move_rightC, move_right, h1, h2, hl]
    · simp [move_rightC, move_right, h1, h2, hl]

/-- When the configured width is positive (fixed width at least 1, or
no fixed width and `1 <= default_columns <= screen_width`), neither division
of the sizing step divides by zero, and the checked sizing agrees with the
total one. -/
lemma applySizingC_eq (w : Nat) (m : CompletionMenu)
    (h : match m.default_details.col_width with
         | none => 0 < m.default_details.columns ∧ m.default_details.columns ≤ w
         | some cw => 0 < cw) :
    applySizingC w m = some (applySizing w m) := by
  cases hcw : m.default_details.col_width with
  | some c =>
      have hc : 0 < c := by simpa [hcw] using h
      have hdw : defaultWidth w m = c := by simp [defaultWidth, hcw]
      have hsw : 0 < sizedWidth w m := by
        unfold sizedWidth
        rw [hdw]
        split_ifs <;> omega
      simp only [applySizingC, hcw]
      rw [if_neg (by omega)]
  | none =>
      have hc : 0 < m.default_details.columns ∧ m.default_details.columns ≤ w := by
        simpa [hcw] using h
      have hdiv : 0 < w / m.default_details.columns := Nat.div_pos hc.2 hc.1
      have hdw : defaultWidth w m = w / m.default_details.columns := by
        simp [defaultWidth, hcw]
      have hsw : 0 < sizedWidth w m := by
        unfold sizedWidth
        rw [hdw]
        split_ifs <;> omega
      simp only [applySizingC, hcw]
      rw [if_neg (by omega), if_neg (by omega)]

end CompletionMenu

/-- The default menu (empty candidate list, default columns 4, no fixed
width) with a pending event, to be sized against a zero-width screen. -/
def menuC2 : CompletionMenu :=
  { CompletionMenu.default with event := some MenuEvent.NextElement }

/-- The default menu with a pending `MoveLeft` and an empty candidate
list. -/
def menuC2L : CompletionMenu :=
  { CompletionMenu.default with event := some MenuEvent.MoveLeft }

/-- Counterexample for C2: processing any pending event on the default menu
(empty candidate list) against a zero-width screen reaches
`possible_cols = screen_width / col_width` with `col_width = 0` — a division
by zero — and a pending `MoveLeft` on an empty candidate list reaches the
underflowing `values.len() - 1` even on a wide screen.  The checked
embedding reports both failures. -/
theorem c2_counterexample :
    menuC2.update_working_detailsC bufEmpty compNone 0 = none
    ∧ menuC2L.update_working_detailsC bufEmpty compNone 30 = none := by
  constructor <;> decide

/-- C2 (amended): no operation of the menu fails provided the candidate list
is non-empty and the configured width is positive (a fixed column width
of at least 1, or no fixed width and `1 <= default_columns <= screen_width`):
under those hypotheses the checked embedding — which returns `none` exactly
where the Rust code would underflow (`values.len() - 1` in
`move_left`/`move_right` on an empty list) or divide by zero
(`screen_width / default_columns` with zero default columns,
`screen_width / col_width` with a computed working width of 0) — agrees
with the total semantics. -/
theorem c2_amended (m : CompletionMenu) (buf : LineBuffer)
    (completer : Completer) (w : Nat) (hv : m.values ≠ [])
    (hw : match m.default_details.col_width with
          | none => 0 < m.default_details.columns ∧ m.default_details.columns ≤ w
          | some cw => 0 < cw) :
    m.update_working_detailsC buf completer w
      = some (m.update_working_details buf completer w) := by
  cases he : m.event with
  | none =>
      rw [CompletionMenu.update_working_details_none m buf completer w he]
      simp [CompletionMenu.update_working_detailsC, he]
  | some e =>
      rw [CompletionMenu.update_working_details_some m buf completer w e he]
      have hd : CompletionMenu.dispatchEventC { m with event := none } buf completer e
          = some (CompletionMenu.dispatchEvent { m with event := none } buf completer e) := by
        cases e
        case MoveLeft => exact CompletionMenu.move_leftC_eq _ hv
        case MoveRight => exact CompletionMenu.move_rightC_eq _ hv
        all_goals rfl
      have hdd : (CompletionMenu.dispatchEvent { m with event := none } buf completer e).default_details
          = m.default_details :=
        CompletionMenu.dispatchEvent_default_details { m with event := none } buf completer e
      simp only [CompletionMenu.update_working_detailsC, he, hd]
      apply CompletionMenu.applySizingC_eq
      rw [hdd]
      exact hw

/-- A menu with one candidate, default layout, and a pending `MoveLeft`, for
the C2 witness. -/
def menuC2W : CompletionMenu :=
  { CompletionMenu.default with
      values := [(⟨0, 0⟩, ['a'])],
      event := some MenuEvent.MoveLeft }

/-- Witness for C2 (amended) at a concrete non-degenerate state. -/
theorem c2_amended_witness :
    menuC2W.values ≠ []
    ∧ (match menuC2W.default_details.col_width with
       | none => 0 < menuC2W.default_details.columns ∧ menuC2W.default_details.columns ≤ 30
       | some cw => 0 < cw)
    ∧ menuC2W.update_working_detailsC bufEmpty compNone 30
        = some (menuC2W.update_working_details bufEmpty compNone 30) :=
  ⟨by decide, ⟨by decide, by decide⟩,
   c2_amended menuC2W bufEmpty compNone 30 (by decide) ⟨by decide, by decide⟩⟩

/-! ## C7: pagination and column assignment of `menu_string` -/

/-- Enumerating a list starting at `j` and shifting each position by `k` is
pairing each element with its position drawn from `range' (j + k)`. -/
lemma enumFrom_shift_zipWith {α β : Type _} (g : Nat → α → β) (k : Nat) :
    ∀ (l : List α) (j : Nat),
      (List.enumFrom j l).map (fun p => g (p.1 + k) p.2)
        = List.zipWith g (List.range' (j + k) l.length) l := by
  intro l
  induction l with
  | nil => intro j; rfl
  | cons a l ih =>
      intro j
      have harith : j + 1 + k = j + k + 1 := by omega
      simp only [List.enumFrom, List.length_cons, List.range', List.map_cons,
        List.zipWith]
      rw [ih (j + 1), harith]

/-- The `enumerate`-with-skip-correction of the source, rephrased with true
list indices. -/
lemma enum_shift_zipWith {α β : Type _} (g : Nat → α → β) (k : Nat)
    (l : List α) :
    (l.enum.map (fun p => g (p.1 + k) p.2))
      = List.zipWith g (List.range' k l.length) l := by
  have h := enumFrom_shift_zipWith g k l 0
  simpa using h

/-- The source's `enumerate` plus skip-correction applied to the cell
renderer, rephrased with the true list index of each rendered candidate. -/
lemma menu_string_bridge (m : CompletionMenu) (skip width : Nat) (ansi : Bool)
    (l : List (Span × List Char)) :
    (l.enum.map (fun p =>
        m.create_string p.2.2 (p.1 + skip) ((p.1 + skip) % m.get_cols)
          (width - p.2.2.length) ansi))
      = List.zipWith
          (fun j sv => m.create_string sv.2 j (j % m.get_cols)
            (width - sv.2.length) ansi)
          (List.range' skip l.length) l :=
  enum_shift_zipWith
    (fun (j : Nat) (sv : Span × List Char) =>
      m.create_string sv.2 j (j % m.get_cols) (width - sv.2.length) ansi)
    skip l

/-- C7: with a non-empty candidate list, `menu_string` renders exactly the
candidates obtained by skipping `(row_pos - available_lines + 1) * cols`
leading entries when `row_pos >= available_lines` (none otherwise) and
taking at most `available_lines * cols` of the rest, in list order; each
rendered candidate keeps its original list index `j` and is assigned column
`j % cols`; and the row terminator `"\r\n"` is produced exactly for cells
whose column is `cols - 1`. -/
theorem c7_menu_string_pagination (m : CompletionMenu) (available_lines : Nat)
    (use_ansi_coloring : Bool) (h : m.values ≠ []) :
    m.menu_string available_lines use_ansi_coloring
      = (List.zipWith
          (fun j sv => m.create_string sv.2 j (j % m.get_cols)
                         (m.get_width - sv.2.length) use_ansi_coloring)
          (List.range'
            (if m.row_pos ≥ available_lines
             then (m.row_pos - available_lines + 1) * m.get_cols else 0)
            ((m.values.drop
                (if m.row_pos ≥ available_lines
                 then (m.row_pos - available_lines + 1) * m.get_cols else 0)).take
              (available_lines * m.get_cols)).length)
          ((m.values.drop
              (if m.row_pos ≥ available_lines
               then (m.row_pos - available_lines + 1) * m.get_cols else 0)).take
            (available_lines * m.get_cols))).flatten
    ∧ ((m.values.drop
          (if m.row_pos ≥ available_lines
           then (m.row_pos - available_lines + 1) * m.get_cols else 0)).take
        (available_lines * m.get_cols)).length ≤ available_lines * m.get_cols
    ∧ (∀ column : Nat,
        m.end_of_line column = ['\r', '\n'] ↔ column = m.get_cols - 1) := by
  refine ⟨?_, ?_, ?_⟩
  · simp only [CompletionMenu.menu_string, CompletionMenu.get_values]
    rw [if_neg h]
    rw [menu_string_bridge]
  · rw [List.length_take]
    omega
  · intro column
    unfold CompletionMenu.end_of_line
    split_ifs with hc
    · simp [hc]
    · simp [hc]

/-- Concrete menu for the C7 witness: five candidates in a two-column grid
with the cursor on row 2, rendered into two available lines. -/
def menuC7 : CompletionMenu :=
  { CompletionMenu.default with
      values := [(⟨0, 0⟩, "aa".toList), (⟨0, 0⟩, "b".toList),
                 (⟨0, 0⟩, "cc".toList), (⟨0, 0⟩, "d".toList),
                 (⟨0, 0⟩, "e".toList)],
      working_details := { columns := 2, col_width := 4, col_padding := 0 },
      row_pos := 2, col_pos := 0 }

/-- Witness for C7 at a concrete paginated render: the cursor is on row 2
with two available lines, so the first `1 * 2` candidates are skipped and
the remaining three are rendered (the selected cell upper-cased with its
marker, the terminator after column 1). -/
theorem c7_menu_string_pagination_witness :
    menuC7.values ≠ []
    ∧ menuC7.menu_string 2 false
        = "cc  d   \r\n>E  ".toList :=
  ⟨by decide,
   ((c7_menu_string_pagination menuC7 2 false (by decide)).1).trans (by decide)⟩

/-! ## Grid arithmetic: `get_rows` as a ceiling division -/

namespace CompletionMenu

lemma get_rows_eq (m : CompletionMenu) :
    m.get_rows
      = if m.values.length % m.get_cols ≠ 0
        then m.values.length / m.get_cols + 1
        else m.values.length / m.get_cols := rfl

lemma get_rows_pos (m : CompletionMenu) (h : 1 ≤ m.values.length) :
    1 ≤ m.get_rows := by
  have hk := m.get_cols_pos
  rw [get_rows_eq]
  obtain ⟨q, r, hdm, hml, hq, hr⟩ :
      ∃ q r, m.get_cols * q + r = m.values.length ∧ r < m.get_cols
        ∧ m.values.length / m.get_cols = q ∧ m.values.length % m.get_cols = r :=
    ⟨_, _, Nat.div_add_mod _ _, Nat.mod_lt _ hk, rfl, rfl⟩
  rw [hq, hr]
  split_ifs with hz
  · omega
  · rcases Nat.eq_zero_or_pos q with h0 | h0
    · rw [h0] at hdm
      omega
    · omega

/-- The grid always has enough cells: `n <= rows * cols`. -/
lemma get_rows_mul_ge (m : CompletionMenu) :
    m.values.length ≤ m.get_rows * m.get_cols := by
  have hk := m.get_cols_pos
  rw [get_rows_eq]
  obtain ⟨q, r, hdm, hml, hq, hr⟩ :
      ∃ q r, m.get_cols * q + r = m.values.length ∧ r < m.get_cols
        ∧ m.values.length / m.get_cols = q ∧ m.values.length % m.get_cols = r :=
    ⟨_, _, Nat.div_add_mod _ _, Nat.mod_lt _ hk, rfl, rfl⟩
  rw [hq, hr]
  have hc : q * m.get_cols = m.get_cols * q := Nat.mul_comm _ _
  split_ifs with hz
  · have hs : (q + 1) * m.get_cols = q * m.get_cols + m.get_cols :=
      Nat.succ_mul q m.get_cols
    omega
  · omega

/-- All rows but the last start strictly inside the candidate list:
`(rows - 1) * cols <= n - 1`. -/
lemma get_rows_pred_mul (m : CompletionMenu) (h : 1 ≤ m.values.length) :
    (m.get_rows - 1) * m.get_cols ≤ m.values.length - 1 := by
  have hk := m.get_cols_pos
  rw [get_rows_eq]
  obtain ⟨q, r, hdm, hml, hq, hr⟩ :
      ∃ q r, m.get_cols * q + r = m.values.length ∧ r < m.get_cols
        ∧ m.values.length / m.get_cols = q ∧ m.values.length % m.get_cols = r :=
    ⟨_, _, Nat.div_add_mod _ _, Nat.mod_lt _ hk, rfl, rfl⟩
  rw [hq, hr]
  have hc : q * m.get_cols = m.get_cols * q := Nat.mul_comm _ _
  split_ifs with hz
  · have he : (q + 1 - 1) * m.get_cols = q * m.get_cols := rfl
    rw [he]
    omega
  · have hs : (q - 1) * m.get_cols = q * m.get_cols - m.get_cols :=
      Nat.sub_one_mul q m.get_cols
    omega

/-- The row of an in-range index is an in-range row. -/
lemma div_lt_get_rows (m : CompletionMenu) (j : Nat)
    (h : j < m.values.length) : j / m.get_cols < m.get_rows := by
  have h1 : j / m.get_cols * m.get_cols ≤ j := Nat.div_mul_le_self _ _
  have h2 := m.get_rows_mul_ge
  by_contra hcon
  push_neg at hcon
  have h3 : m.get_rows * m.get_cols ≤ j / m.get_cols * m.get_cols :=
    Nat.mul_le_mul_right _ hcon
  omega

end CompletionMenu

/-! ## Navigation invariants -/

namespace CompletionMenu

lemma get_cols_set_pos (m : CompletionMenu) (c r : Nat) :
    ({ m with col_pos := c, row_pos := r } : CompletionMenu).get_cols
      = m.get_cols := rfl

lemma get_cols_set_row (m : CompletionMenu) (r : Nat) :
    ({ m with row_pos := r } : CompletionMenu).get_cols = m.get_cols := rfl

lemma get_cols_set_col (m : CompletionMenu) (c : Nat) :
    ({ m with col_pos := c } : CompletionMenu).get_cols = m.get_cols := rfl

/-- `move_next` keeps the cursor inside the `rows × cols` cell grid. -/
lemma move_next_JR (m : CompletionMenu) (hn : 1 ≤ m.values.length)
    (hJ : m.col_pos < m.get_cols) (hR : m.row_pos < m.get_rows) :
    m.move_next.col_pos < m.get_cols ∧ m.move_next.row_pos < m.get_rows := by
  have hk := m.get_cols_pos
  have hR1 := m.get_rows_pos hn
  simp only [move_next, reset_position, get_values]
  split_ifs <;> (try dsimp only at *) <;> constructor <;> omega

/-- `move_previous` keeps the cursor inside the `rows × cols` cell grid. -/
lemma move_previous_JR (m : CompletionMenu) (hn : 1 ≤ m.values.length)
    (hJ : m.col_pos < m.get_cols) (hR : m.row_pos < m.get_rows) :
    m.move_previous.col_pos < m.get_cols
    ∧ m.move_previous.row_pos < m.get_rows := by
  have hk := m.get_cols_pos
  have hR1 := m.get_rows_pos hn
  have hml := Nat.mod_lt m.values.length hk
  simp only [move_previous, get_values]
  split_ifs <;> (try dsimp only at *) <;> constructor <;> omega

/-- `move_up` keeps the cursor inside the `rows × cols` cell grid. -/
lemma move_up_JR (m : CompletionMenu) (hn : 1 ≤ m.values.length)
    (hJ : m.col_pos < m.get_cols) (hR : m.row_pos < m.get_rows) :
    m.move_up.col_pos < m.get_cols ∧ m.move_up.row_pos < m.get_rows := by
  have hk := m.get_cols_pos
  have hR1 := m.get_rows_pos hn
  simp only [move_up]
  split_ifs <;> (try dsimp only at *) <;> constructor <;> omega

/-- `move_down` keeps the cursor inside the `rows × cols` cell grid. -/
lemma move_down_JR (m : CompletionMenu) (hn : 1 ≤ m.values.length)
    (hJ : m.col_pos < m.get_cols) (hR : m.row_pos < m.get_rows) :
    m.move_down.col_pos < m.get_cols ∧ m.move_down.row_pos < m.get_rows := by
  have hk := m.get_cols_pos
  have hR1 := m.get_rows_pos hn
  simp only [move_down]
  split_ifs <;> (try dsimp only at *) <;> constructor <;> omega

/-- `move_left` keeps the cursor inside the `rows × cols` cell grid. -/
lemma move_left_JR (m : CompletionMenu) (hn : 1 ≤ m.values.length)
    (hJ : m.col_pos < m.get_cols) (hR : m.row_pos < m.get_rows) :
    m.move_left.col_pos < m.get_cols ∧ m.move_left.row_pos < m.get_rows := by
  have hk := m.get_cols_pos
  have hR1 := m.get_rows_pos hn
  simp only [move_left]
  split_ifs <;> (try dsimp only at *) <;> constructor <;> omega

/-- `move_right` keeps the cursor inside the `rows × cols` cell grid. -/
lemma move_right_JR (m : CompletionMenu) (hn : 1 ≤ m.values.length)
    (hJ : m.col_pos < m.get_cols) (hR : m.row_pos < m.get_rows) :
    m.move_right.col_pos < m.get_cols ∧ m.move_right.row_pos < m.get_rows := by
  have hk := m.get_cols_pos
  have hR1 := m.get_rows_pos hn
  simp only [move_right]
  split_ifs <;> (try dsimp only at *) <;> constructor <;> omega

end CompletionMenu

namespace CompletionMenu

/-- `move_next` keeps the cursor index in range (and the column both in the
grid and in range). -/
lemma move_next_IJK (m : CompletionMenu) (hn : 1 ≤ m.values.length)
    (hI : m.row_pos * m.get_cols + m.col_pos < m.values.length)
    (hJ : m.col_pos < m.get_cols)
    (hK : m.col_pos < m.values.length) :
    m.move_next.row_pos * m.get_cols + m.move_next.col_pos < m.values.length
    ∧ m.move_next.col_pos < m.get_cols
    ∧ m.move_next.col_pos < m.values.length := by
  have hk := m.get_cols_pos
  have hR1 := m.get_rows_pos hn
  simp only [move_next, reset_position, get_values]
  split_ifs <;> (try dsimp only at *) <;> refine ⟨?_, ?_, ?_⟩ <;> omega

/-- `move_previous` keeps the cursor index in range. -/
lemma move_previous_IJK (m : CompletionMenu) (hn : 1 ≤ m.values.length)
    (hI : m.row_pos * m.get_cols + m.col_pos < m.values.length)
    (hJ : m.col_pos < m.get_cols)
    (hK : m.col_pos < m.values.length) :
    m.move_previous.row_pos * m.get_cols + m.move_previous.col_pos < m.values.length
    ∧ m.move_previous.col_pos < m.get_cols
    ∧ m.move_previous.col_pos < m.values.length := by
  have hk := m.get_cols_pos
  have hR1 := m.get_rows_pos hn
  obtain ⟨q, r, hdm, hml, hq, hr⟩ :
      ∃ q r, m.get_cols * q + r = m.values.length ∧ r < m.get_cols
        ∧ m.values.length / m.get_cols = q ∧ m.values.length % m.get_cols = r :=
    ⟨_, _, Nat.div_add_mod _ _, Nat.mod_lt _ m.get_cols_pos, rfl, rfl⟩
  have hre : m.get_rows = if r ≠ 0 then q + 1 else q := by
    rw [get_rows_eq, hq, hr]
  have hc : q * m.get_cols = m.get_cols * q := Nat.mul_comm _ _
  have hs1 : (q + 1 - 1) * m.get_cols = q * m.get_cols := rfl
  have hs2 : (q - 1) * m.get_cols = q * m.get_cols - m.get_cols :=
    Nat.sub_one_mul _ _
  simp only [move_previous, get_values]
  rw [hr, hre]
  split_ifs <;> (try dsimp only at *) <;> refine ⟨?_, ?_, ?_⟩ <;> omega

/-- `move_up` keeps the cursor index in range. -/
lemma move_up_IJK (m : CompletionMenu) (hn : 1 ≤ m.values.length)
    (hI : m.row_pos * m.get_cols + m.col_pos < m.values.length)
    (hJ : m.col_pos < m.get_cols)
    (hK : m.col_pos < m.values.length) :
    m.move_up.row_pos * m.get_cols + m.move_up.col_pos < m.values.length
    ∧ m.move_up.col_pos < m.get_cols
    ∧ m.move_up.col_pos < m.values.length := by
  have hk := m.get_cols_pos
  have hR1 := m.get_rows_pos hn
  simp only [move_up, get_values]
  split_ifs with h1 h2
  · refine ⟨?_, hJ, hK⟩
    dsimp only
    have hs : (m.row_pos - 1) * m.get_cols + m.get_cols
        = m.row_pos * m.get_cols := by
      have he : m.row_pos - 1 + 1 = m.row_pos := by omega
      calc (m.row_pos - 1) * m.get_cols + m.get_cols
          = (m.row_pos - 1 + 1) * m.get_cols := (Nat.succ_mul _ _).symm
        _ = m.row_pos * m.get_cols := by rw [he]
    omega
  · refine ⟨?_, hJ, hK⟩
    dsimp only
    by_cases hr2 : 2 ≤ m.get_rows
    · have hs : (m.get_rows - 1 - 1) * m.get_cols + m.get_cols
          = (m.get_rows - 1) * m.get_cols := by
        have he : m.get_rows - 1 - 1 + 1 = m.get_rows - 1 := by omega
        calc (m.get_rows - 1 - 1) * m.get_cols + m.get_cols
            = (m.get_rows - 1 - 1 + 1) * m.get_cols := (Nat.succ_mul _ _).symm
          _ = (m.get_rows - 1) * m.get_cols := by rw [he]
      have hpm := m.get_rows_pred_mul hn
      omega
    · have h0 : (m.get_rows - 1) * m.get_cols = 0 := by
        have he : m.get_rows - 1 = 0 := by omega
        rw [he, Nat.zero_mul]
      omega
  · refine ⟨?_, hJ, hK⟩
    dsimp only
    omega

/-- `move_down` keeps the cursor index in range. -/
lemma move_down_IJK (m : CompletionMenu) (hn : 1 ≤ m.values.length)
    (hI : m.row_pos * m.get_cols + m.col_pos < m.values.length)
    (hJ : m.col_pos < m.get_cols)
    (hK : m.col_pos < m.values.length) :
    m.move_down.row_pos * m.get_cols + m.move_down.col_pos < m.values.length
    ∧ m.move_down.col_pos < m.get_cols
    ∧ m.move_down.col_pos < m.values.length := by
  have hk := m.get_cols_pos
  have hR1 := m.get_rows_pos hn
  simp only [move_down, get_values]
  split_ifs <;> (try dsimp only at *) <;> refine ⟨?_, ?_, ?_⟩ <;> omega

/-- `move_right` keeps the cursor index in range. -/
lemma move_right_IJK (m : CompletionMenu) (hn : 1 ≤ m.values.length)
    (hI : m.row_pos * m.get_cols + m.col_pos < m.values.length)
    (hJ : m.col_pos < m.get_cols)
    (hK : m.col_pos < m.values.length) :
    m.move_right.row_pos * m.get_cols + m.move_right.col_pos < m.values.length
    ∧ m.move_right.col_pos < m.get_cols
    ∧ m.move_right.col_pos < m.values.length := by
  have hk := m.get_cols_pos
  have hR1 := m.get_rows_pos hn
  simp only [move_right, index, get_values]
  split_ifs <;> (try dsimp only at *) <;> refine ⟨?_, ?_, ?_⟩ <;> omega

end CompletionMenu

namespace CompletionMenu

lemma index_eq (m : CompletionMenu) :
    m.index = m.row_pos * m.get_cols + m.col_pos := rfl

end CompletionMenu

lemma applyNav_values (m : CompletionMenu) (op : NavOp) :
    (applyNav m op).values = m.values := by
  cases op <;>
    simp only [applyNav, CompletionMenu.move_next, CompletionMenu.move_previous,
      CompletionMenu.move_up, CompletionMenu.move_down, CompletionMenu.move_left,
      CompletionMenu.move_right, CompletionMenu.reset_position,
      CompletionMenu.get_values] <;>
    (try split_ifs) <;> rfl

lemma applyNav_working_details (m : CompletionMenu) (op : NavOp) :
    (applyNav m op).working_details = m.working_details := by
  cases op <;>
    simp only [applyNav, CompletionMenu.move_next, CompletionMenu.move_previous,
      CompletionMenu.move_up, CompletionMenu.move_down, CompletionMenu.move_left,
      CompletionMenu.move_right, CompletionMenu.reset_position,
      CompletionMenu.get_values] <;>
    (try split_ifs) <;> rfl

lemma applyNav_get_cols (m : CompletionMenu) (op : NavOp) :
    (applyNav m op).get_cols = m.get_cols := by
  unfold CompletionMenu.get_cols
  rw [applyNav_working_details]

lemma applyNav_get_rows (m : CompletionMenu) (op : NavOp) :
    (applyNav m op).get_rows = m.get_rows := by
  rw [CompletionMenu.get_rows_eq, CompletionMenu.get_rows_eq, applyNav_values,
    applyNav_get_cols]

/-- Any single navigation operation keeps the cursor inside the
`rows × cols` cell grid. -/
lemma applyNav_JR (m : CompletionMenu) (op : NavOp) (hn : 1 ≤ m.values.length)
    (hJ : m.col_pos < m.get_cols) (hR : m.row_pos < m.get_rows) :
    (applyNav m op).col_pos < m.get_cols
    ∧ (applyNav m op).row_pos < m.get_rows := by
  cases op
  case next => exact m.move_next_JR hn hJ hR
  case previous => exact m.move_previous_JR hn hJ hR
  case up => exact m.move_up_JR hn hJ hR
  case down => exact m.move_down_JR hn hJ hR
  case left => exact m.move_left_JR hn hJ hR
  case right => exact m.move_right_JR hn hJ hR

/-- Any single navigation operation other than `move_left` keeps the cursor
index strictly below the number of candidates. -/
lemma applyNav_IJK (m : CompletionMenu) (op : NavOp) (hop : op ≠ NavOp.left)
    (hn : 1 ≤ m.values.length)
    (hI : m.row_pos * m.get_cols + m.col_pos < m.values.length)
    (hJ : m.col_pos < m.get_cols)
    (hK : m.col_pos < m.values.length) :
    (applyNav m op).row_pos * m.get_cols + (applyNav m op).col_pos < m.values.length
    ∧ (applyNav m op).col_pos < m.get_cols
    ∧ (applyNav m op).col_pos < m.values.length := by
  cases op
  case next => exact m.move_next_IJK hn hI hJ hK
  case previous => exact m.move_previous_IJK hn hI hJ hK
  case up => exact m.move_up_IJK hn hI hJ hK
  case down => exact m.move_down_IJK hn hI hJ hK
  case left => exact absurd rfl hop
  case right => exact m.move_right_IJK hn hI hJ hK

lemma runNav_frame (ops : List NavOp) :
    ∀ m : CompletionMenu, (runNav m ops).values = m.values
      ∧ (runNav m ops).working_details = m.working_details := by
  induction ops with
  | nil => intro m; exact ⟨rfl, rfl⟩
  | cons op ops ih =>
      intro m
      have h := ih (applyNav m op)
      exact ⟨h.1.trans (applyNav_values m op),
             h.2.trans (applyNav_working_details m op)⟩

lemma runNav_get_cols (ops : List NavOp) (m : CompletionMenu) :
    (runNav m ops).get_cols = m.get_cols := by
  unfold CompletionMenu.get_cols
  rw [(runNav_frame ops m).2]

lemma runNav_get_rows (ops : List NavOp) (m : CompletionMenu) :
    (runNav m ops).get_rows = m.get_rows := by
  rw [CompletionMenu.get_rows_eq, CompletionMenu.get_rows_eq,
    (runNav_frame ops m).1, runNav_get_cols]

/-- Along any run of navigation operations the cursor stays inside the
`rows × cols` cell grid. -/
lemma runNav_JR (ops : List NavOp) :
    ∀ m : CompletionMenu, 1 ≤ m.values.length →
      m.col_pos < m.get_cols → m.row_pos < m.get_rows →
      (runNav m ops).col_pos < m.get_cols
      ∧ (runNav m ops).row_pos < m.get_rows := by
  induction ops with
  | nil => intro m _ hJ hR; exact ⟨hJ, hR⟩
  | cons op ops ih =>
      intro m hn hJ hR
      have hstep := applyNav_JR m op hn hJ hR
      have h1 := applyNav_values m op
      have hgc := applyNav_get_cols m op
      have hgr := applyNav_get_rows m op
      have hres := ih (applyNav m op) (by rw [h1]; exact hn)
        (by rw [hgc]; exact hstep.1) (by rw [hgr]; exact hstep.2)
      rw [hgc, hgr] at hres
      exact hres

/-- Along any `move_left`-free run of navigation operations the cursor index
stays strictly below the number of candidates. -/
lemma runNav_IJK (ops : List NavOp) :
    ∀ m : CompletionMenu, NavOp.left ∉ ops → 1 ≤ m.values.length →
      m.row_pos * m.get_cols + m.col_pos < m.values.length →
      m.col_pos < m.get_cols → m.col_pos < m.values.length →
      (runNav m ops).row_pos * m.get_cols + (runNav m ops).col_pos
        < m.values.length := by
  induction ops with
  | nil => intro m _ _ hI _ _; exact hI
  | cons op ops ih =>
      intro m hmem hn hI hJ hK
      have hop : op ≠ NavOp.left := by
        intro h
        exact hmem (by rw [h]; exact List.mem_cons_self _ _)
      have hops : NavOp.left ∉ ops := fun h => hmem (List.mem_cons_of_mem _ h)
      have hstep := applyNav_IJK m op hop hn hI hJ hK
      have h1 := applyNav_values m op
      have hgc := applyNav_get_cols m op
      have hres := ih (applyNav m op) hops (by rw [h1]; exact hn)
        (by rw [hgc, h1]; exact hstep.1) (by rw [hgc]; exact hstep.2.1)
        (by rw [h1]; exact hstep.2.2)
      rw [hgc, h1] at hres
      exact hres

/-! ## C1: the cursor-index invariant -/

/-- Five candidates in a three-column grid (rows = 2, the last row holds
candidates 3 and 4 only), cursor at `(0,0)`. -/
def menuC1 : CompletionMenu :=
  { CompletionMenu.default with
      values := [(⟨0, 0⟩, ['a']), (⟨0, 0⟩, ['b']), (⟨0, 0⟩, ['c']),
                 (⟨0, 0⟩, ['d']), (⟨0, 0⟩, ['e'])],
      working_details := { columns := 3, col_width := 0, col_padding := 0 } }

/-- Counterexample for C1: with `n = 5` and `cols = 3`, the sequence
`move_down; move_left` from `(0,0)` reaches `(1,0)` and then wraps the
column to `cols - 1 = 2` without changing the row (the cursor is not on the
last candidate, whose index is 4), landing on the empty trailing cell with
index `5 >= n`. -/
theorem c1_counterexample :
    menuC1.col_pos = 0 ∧ menuC1.row_pos = 0
    ∧ menuC1.values.length = 5 ∧ menuC1.get_cols = 3
    ∧ (runNav menuC1 [NavOp.down, NavOp.left]).index = 5
    ∧ ¬((runNav menuC1 [NavOp.down, NavOp.left]).index
          < menuC1.values.length) := by
  refine ⟨rfl, rfl, rfl, rfl, rfl, ?_⟩
  decide

/-- C1 (amended): for every candidate list of length `n >= 1`, after any
finite sequence of navigation operations starting from cursor `(0,0)` the
cursor index is in `[0, rows * cols)` (it never leaves the conceptual cell
grid), and for any sequence avoiding `move_left` it is in `[0, n)`;
`move_left` alone can wrap from column 0 of the short last row onto an empty
trailing cell with index `>= n`. -/
theorem c1_cursor_index_invariant_amended (m : CompletionMenu)
    (ops : List NavOp) (hc : m.col_pos = 0) (hr : m.row_pos = 0)
    (hn : 1 ≤ m.values.length) :
    (NavOp.left ∉ ops → (runNav m ops).index < m.values.length)
    ∧ (runNav m ops).index < m.get_rows * m.get_cols := by
  have hk := m.get_cols_pos
  have hR1 := m.get_rows_pos hn
  have hgc := runNav_get_cols ops m
  have hidx : (runNav m ops).index
      = (runNav m ops).row_pos * m.get_cols + (runNav m ops).col_pos := by
    rw [CompletionMenu.index_eq, hgc]
  constructor
  · intro hnl
    rw [hidx]
    exact runNav_IJK ops m hnl hn (by rw [hc, hr]; omega)
      (by rw [hc]; exact hk) (by rw [hc]; omega)
  · rw [hidx]
    have hJR := runNav_JR ops m hn (by rw [hc]; exact hk)
      (by rw [hr]; exact hR1)
    have h1 : (runNav m ops).row_pos ≤ m.get_rows - 1 := by omega
    have h2 : (runNav m ops).row_pos * m.get_cols
        ≤ (m.get_rows - 1) * m.get_cols := Nat.mul_le_mul_right _ h1
    have hs : (m.get_rows - 1) * m.get_cols + m.get_cols
        = m.get_rows * m.get_cols := by
      have he : m.get_rows - 1 + 1 = m.get_rows := by omega
      calc (m.get_rows - 1) * m.get_cols + m.get_cols
          = (m.get_rows - 1 + 1) * m.get_cols := (Nat.succ_mul _ _).symm
        _ = m.get_rows * m.get_cols := by rw [he]
    omega

/-- Two candidates in a one-column grid, cursor at `(0,0)`, for the C1
witness. -/
def menuC1W : CompletionMenu :=
  { CompletionMenu.default with
      values := [(⟨0, 0⟩, ['a']), (⟨0, 0⟩, ['b'])],
      working_details := { columns := 1, col_width := 0, col_padding := 0 } }

/-- Witness for C1 (amended) at a concrete state and operation sequence. -/
theorem c1_cursor_index_invariant_amended_witness :
    menuC1W.col_pos = 0 ∧ menuC1W.row_pos = 0 ∧ 1 ≤ menuC1W.values.length
    ∧ ((NavOp.left ∉ [NavOp.next, NavOp.up] →
          (runNav menuC1W [NavOp.next, NavOp.up]).index < menuC1W.values.length)
       ∧ (runNav menuC1W [NavOp.next, NavOp.up]).index
           < menuC1W.get_rows * menuC1W.get_cols) :=
  ⟨rfl, rfl, by decide,
   c1_cursor_index_invariant_amended menuC1W [NavOp.next, NavOp.up]
     rfl rfl (by decide)⟩

/-! ## C6: `move_next` wraps back to the origin after `n` steps -/

namespace CompletionMenu

lemma get_rows_set_pos (m : CompletionMenu) (c r : Nat) :
    ({ m with col_pos := c, row_pos := r } : CompletionMenu).get_rows
      = m.get_rows := rfl

/-- A state whose cursor is already at the origin is unchanged by resetting
the cursor. -/
lemma cursor_eta (m : CompletionMenu) (hc : m.col_pos = 0)
    (hr : m.row_pos = 0) :
    ({ m with col_pos := 0, row_pos := 0 } : CompletionMenu) = m := by
  cases m
  simp_all

/-- Characterisation of the `move_next` orbit: as long as the step count
stays below the candidate count, the cursor walks the grid in row-major
order, `k` steps from the origin landing on `(k / cols, k % cols)`. -/
lemma iterate_move_next_eq (m : CompletionMenu) (hc : m.col_pos = 0)
    (hr : m.row_pos = 0) :
    ∀ k, k < m.values.length →
      move_next^[k] m
        = { m with row_pos := k / m.get_cols, col_pos := k % m.get_cols } := by
  have hk0 := m.get_cols_pos
  intro k
  induction k with
  | zero =>
      intro _
      rw [Function.iterate_zero_apply, Nat.zero_div, Nat.zero_mod]
      exact (cursor_eta m hc hr).symm
  | succ k ihk =>
      intro hk1
      have hk : k < m.values.length := Nat.lt_of_succ_lt hk1
      rw [Function.iterate_succ_apply', ihk hk]
      obtain ⟨q, r, hdm, hml, hqe, hre⟩ :
          ∃ q r, m.get_cols * q + r = k ∧ r < m.get_cols
            ∧ k / m.get_cols = q ∧ k % m.get_cols = r :=
        ⟨_, _, Nat.div_add_mod _ _, Nat.mod_lt _ hk0, rfl, rfl⟩
      simp only [move_next, reset_position, get_values, get_cols_set_pos,
        get_rows_set_pos]
      rw [hqe, hre]
      try dsimp only
      by_cases hcase : r + 1 ≥ m.get_cols
      · -- the cursor is on the last column: advance to the next row
        have hms : m.get_cols * (q + 1) = m.get_cols * q + m.get_cols :=
          Nat.mul_succ _ _
        have e1 : k + 1 = m.get_cols * (q + 1) := by omega
        have hdiv1 : (k + 1) / m.get_cols = q + 1 := by
          rw [e1]
          exact Nat.mul_div_cancel_left _ hk0
        have hmod1 : (k + 1) % m.get_cols = 0 := by
          rw [e1]
          exact Nat.mul_mod_right _ _
        have hlt : q + 1 < m.get_rows := by
          have h := m.div_lt_get_rows (k + 1) hk1
          rw [hdiv1] at h
          exact h
        rw [if_pos hcase, hdiv1, hmod1]
        try dsimp only
        rw [if_neg (by omega : ¬ q + 1 ≥ m.get_rows)]
        try dsimp only
        have hcm : (q + 1) * m.get_cols = m.get_cols * (q + 1) :=
          Nat.mul_comm _ _
        rw [if_neg (by omega : ¬ (q + 1) * m.get_cols + 0 ≥ m.values.length)]
      · -- plain step to the next column of the same row
        have e1 : k + 1 = m.get_cols * q + (r + 1) := by omega
        have hdiv1 : (k + 1) / m.get_cols = q := by
          rw [e1, Nat.mul_add_div hk0, Nat.div_eq_of_lt (by omega)]
          omega
        have hmod1 : (k + 1) % m.get_cols = r + 1 := by
          rw [e1, Nat.mul_add_mod, Nat.mod_eq_of_lt (by omega)]
        have hlt : q < m.get_rows := by
          have h := m.div_lt_get_rows k hk
          rw [hqe] at h
          exact h
        have hcm : q * m.get_cols = m.get_cols * q := Nat.mul_comm _ _
        rw [if_neg hcase, hdiv1, hmod1]
        try dsimp only
        rw [if_neg (by omega : ¬ q ≥ m.get_rows)]
        try dsimp only
        rw [if_neg (by omega : ¬ q * m.get_cols + (r + 1) ≥ m.values.length)]

end CompletionMenu

/-- C6: for every candidate list of length `n >= 1` and any working column
layout, applying `move_next` exactly `n` times from cursor `(0,0)` returns
the state — including the cursor — to exactly where it started: the step
past the last candidate resets to `(0,0)` instead of committing the
out-of-range position. -/
theorem c6_move_next_cycle (m : CompletionMenu) (hc : m.col_pos = 0)
    (hr : m.row_pos = 0) (hn : 1 ≤ m.values.length) :
    CompletionMenu.move_next^[m.values.length] m = m := by
  have hk0 := m.get_cols_pos
  obtain ⟨j, hj⟩ : ∃ j, m.values.length = j + 1 :=
    ⟨m.values.length - 1, by omega⟩
  rw [hj, Function.iterate_succ_apply',
    CompletionMenu.iterate_move_next_eq m hc hr j (by omega)]
  obtain ⟨q, r, hdm, hml, hqe, hre⟩ :
      ∃ q r, m.get_cols * q + r = j ∧ r < m.get_cols
        ∧ j / m.get_cols = q ∧ j % m.get_cols = r :=
    ⟨_, _, Nat.div_add_mod _ _, Nat.mod_lt _ hk0, rfl, rfl⟩
  simp only [CompletionMenu.move_next, CompletionMenu.reset_position,
    CompletionMenu.get_values, CompletionMenu.get_cols_set_pos,
    CompletionMenu.get_rows_set_pos]
  rw [hqe, hre]
  try dsimp only
  by_cases hcase : r + 1 ≥ m.get_cols
  · have hms : m.get_cols * (q + 1) = m.get_cols * q + m.get_cols :=
      Nat.mul_succ _ _
    have hcm : (q + 1) * m.get_cols = m.get_cols * (q + 1) := Nat.mul_comm _ _
    rw [if_pos hcase]
    try dsimp only
    by_cases hw : q + 1 ≥ m.get_rows
    · rw [if_pos hw]
      try dsimp only
      rw [if_neg (by omega : ¬ 0 * m.get_cols + 0 ≥ m.values.length)]
      exact CompletionMenu.cursor_eta m hc hr
    · rw [if_neg hw]
      try dsimp only
      rw [if_pos (by omega : (q + 1) * m.get_cols + 0 ≥ m.values.length)]
      exact CompletionMenu.cursor_eta m hc hr
  · have hcm : q * m.get_cols = m.get_cols * q := Nat.mul_comm _ _
    have hlt : q < m.get_rows := by
      have h := m.div_lt_get_rows j (by omega)
      rw [hqe] at h
      exact h
    rw [if_neg hcase]
    try dsimp only
    rw [if_neg (by omega : ¬ q ≥ m.get_rows)]
    try dsimp only
    rw [if_pos (by omega : q * m.get_cols + (r + 1) ≥ m.values.length)]
    exact CompletionMenu.cursor_eta m hc hr

/-- Three candidates in a two-column grid, cursor at `(0,0)`, for the C6
witness. -/
def menuC6 : CompletionMenu :=
  { CompletionMenu.default with
      values := [(⟨0, 0⟩, ['a']), (⟨0, 0⟩, ['b']), (⟨0, 0⟩, ['c'])],
      working_details := { columns := 2, col_width := 0, col_padding := 0 } }

/-- Witness for C6: three `move_next` steps on a 2×2 grid holding three
candidates return to the initial state. -/
theorem c6_move_next_cycle_witness :
    menuC6.col_pos = 0 ∧ menuC6.row_pos = 0 ∧ 1 ≤ menuC6.values.length
    ∧ CompletionMenu.move_next^[menuC6.values.length] menuC6 = menuC6 :=
  ⟨rfl, rfl, by decide, c6_move_next_cycle menuC6 rfl rfl (by decide)⟩
